import Mathlib

/-!
Verification of the per-server runtime core of the wings daemon against its
natural-language specification.  Go source functions are shallowly embedded
as executable Lean definitions; machine integers are modelled as Int or Nat,
byte slices as lists of Nat, and fallible code returns Option or Except.
-/

namespace Wings

/-- Byte slices are modelled as lists of natural numbers (each below 256
where it matters; the claims in this development never depend on the bound). -/
abbrev Bytes := List Nat

/-! ## Container process states

From environment/states: the four process states used by the daemon. -/

inductive ProcessState
  | offline
  | starting
  | running
  | stopping
deriving DecidableEq

/-! ## C9: change-times with zero timestamps (internal/ufs fs_linux.go and fs_darwin.go)

Go time.Time has a distinguished zero value tested by IsZero; any other
instant is identified here by its UnixNano value. -/

/-- Go time.Time as used by Chtimesat: the zero value or a concrete instant
given by its nanosecond unix timestamp. -/
inductive GoTime
  | zeroTime
  | unixNanos (n : Int)
deriving DecidableEq

/-- Go time.Time.IsZero. -/
def GoTime.isZero : GoTime → Bool
  | .zeroTime => true
  | .unixNanos _ => false

/-- The access and modification timestamps of a file, in nanoseconds. -/
structure FileTimes where
  atime : Int
  mtime : Int
deriving DecidableEq

/-- One entry of the utimes array passed to utimensat: either the sentinel
UTIME_OMIT or a concrete timespec. -/
inductive Timespec
  | omit
  | spec (nanos : Int)
deriving DecidableEq

/-- Modelled from the spec: the kernel contract of unix.UtimesNanoAt (the
utimensat syscall, external to this repository) on the timestamps of the
target file.  A slot carrying UTIME_OMIT leaves that timestamp unchanged;
a concrete timespec replaces it. -/
def utimesNanoAt (file : FileTimes) (a m : Timespec) : FileTimes :=
  { atime := match a with | .omit => file.atime | .spec n => n
    mtime := match m with | .omit => file.mtime | .spec n => n }

/-- UnixFS.Chtimesat on Linux (internal/ufs/fs_linux.go): a zero time maps to
UTIME_OMIT in the corresponding utimes slot, a non-zero time to its
nanosecond timespec, and a single UtimesNanoAt call applies both. -/
def Chtimesat_linux (file : FileTimes) (atime mtime : GoTime) : FileTimes :=
  let set : GoTime → Timespec := fun t =>
    match t with
    | .zeroTime => .omit
    | .unixNanos n => .spec n
  utimesNanoAt file (set atime) (set mtime)

/-- UnixFS.Chtimesat on Darwin (internal/ufs/fs_darwin.go): UTIME_OMIT is not
available, so when either supplied time is zero the current timestamps are
read with Fstatat and substituted for the zero slots, then both concrete
timespecs are applied with UtimesNanoAt. -/
def Chtimesat_darwin (file : FileTimes) (atime mtime : GoTime) : FileTimes :=
  let atime2 : Int :=
    if atime.isZero then file.atime
    else match atime with | .zeroTime => file.atime | .unixNanos n => n
  let mtime2 : Int :=
    if mtime.isZero then file.mtime
    else match mtime with | .zeroTime => file.mtime | .unixNanos n => n
  utimesNanoAt file (.spec atime2) (.spec mtime2)

/-! ## C8: per-server WebSocket connection cap (router, getServerWebsocket) -/

/-- Outcome of a websocket connection attempt: refused with an HTTP status
and error body, or upgraded and tracked in the registry. -/
inductive WsAdmission
  | refused (status : Nat) (error : String)
  | upgraded
deriving DecidableEq

/-- The admission check of getServerWebsocket: a connection attempt made
while the registry already holds 30 or more open connections is aborted with
HTTP 400 before the upgrade; otherwise the connection is upgraded. -/
def getServerWebsocketAdmission (openCount : Nat) : WsAdmission :=
  if openCount ≥ 30 then
    .refused 400 "Too many open websocket connections."
  else
    .upgraded

/-- Evolution of the per-server websocket registry size: a connect attempt
goes through the admission check (Websockets().Push on success), a
disconnect removes the handler (Websockets().Remove via defer). -/
inductive WsEvent
  | connect
  | disconnect

/-- One step of the registry size under a connection event. -/
def websocketStep (n : Nat) : WsEvent → Nat
  | .connect =>
    match getServerWebsocketAdmission n with
    | .refused _ _ => n
    | .upgraded => n + 1
  | .disconnect => n - 1

/-! ## C5: one-shot disk space limiter (server/config_parser.go) -/

/-- Observable side effects of the event-listener goroutine relevant to the
disk limiter. -/
inductive LimiterEffect
  | daemonMessage (msg : String)
  | waitForStop (seconds : Nat) (killOnTimeout : Bool)
  | statsEvent
  | onStateChange
  | installOutput
deriving DecidableEq

/-- Environment events consumed by the listener started in
StartEventListeners.  A resource event carries whether the filesystem still
reports available space; a state-change event carries the new state. -/
inductive EnvEvent
  | resource (hasSpaceAvailable : Bool)
  | stateChange (data : ProcessState)
  | dockerImagePullStatus

/-- The limiter state is the consumed flag of its sync.Once: true once the
trigger has fired since the last reset. -/
abbrev LimiterOnce := Bool

/-- diskSpaceLimiter.Trigger: under the sync.Once, publish the daemon console
message and invoke WaitForStop with a one-minute deadline and the terminate
flag set; a second call is a no-op until Reset. -/
def diskSpaceLimiterTrigger (once : LimiterOnce) : LimiterOnce × List LimiterEffect :=
  if once then
    (once, [])
  else
    (true,
      [ .daemonMessage "Server is exceeding the assigned disk space limit, stopping process now."
      , .waitForStop 60 true ])

/-- diskSpaceLimiter.Reset: replace the sync.Once so the trigger can fire
again. -/
def diskSpaceLimiterReset (_ : LimiterOnce) : LimiterOnce := false

/-- One iteration of the listener goroutine in StartEventListeners.  On a
resource event the stats are updated, the limiter is triggered when no space
is available, and a stats event is published.  On a state-change event the
limiter (and throttler) are reset when the new state is starting, then
OnStateChange runs.  Docker pull status is forwarded as install output. -/
def handleEnvEvent (once : LimiterOnce) (e : EnvEvent) : LimiterOnce × List LimiterEffect :=
  match e with
  | .resource hasSpaceAvailable =>
    if hasSpaceAvailable then
      (once, [.statsEvent])
    else
      let r := diskSpaceLimiterTrigger once
      (r.1, r.2 ++ [.statsEvent])
  | .stateChange data =>
    if data = .starting then
      (diskSpaceLimiterReset once, [.onStateChange])
    else
      (once, [.onStateChange])
  | .dockerImagePullStatus => (once, [.installOutput])

/-- Run the listener over a sequence of environment events, accumulating the
published effects in order. -/
def handleEnvEvents (once : LimiterOnce) : List EnvEvent → LimiterOnce × List LimiterEffect
  | [] => (once, [])
  | e :: rest =>
    let r := handleEnvEvent once e
    let s := handleEnvEvents r.1 rest
    (s.1, r.2 ++ s.2)

/-- Number of wait-for-stop invocations among a list of effects. -/
def countWaitForStop : List LimiterEffect → Nat
  | [] => 0
  | .waitForStop _ _ :: rest => countWaitForStop rest + 1
  | _ :: rest => countWaitForStop rest

/-- Counting wait-for-stop invocations distributes over append. -/
theorem countWaitForStop_append (l₁ l₂ : List LimiterEffect) :
    countWaitForStop (l₁ ++ l₂) = countWaitForStop l₁ + countWaitForStop l₂ := by
  induction l₁ with
  | nil => simp [countWaitForStop]
  | cons e rest ih =>
    cases e
    all_goals simp [countWaitForStop, ih]
    all_goals omega

/-- An event re-arms the limiter exactly when it is a state change into the
starting state. -/
def isStartingStateEvent : EnvEvent → Bool
  | .stateChange data => data = .starting
  | _ => false

/-- Helper: over any event run with no transition into the starting state,
the trigger fires at most once from an armed limiter and never from a
consumed one. -/
theorem handleEnvEvents_fire_bound (es : List EnvEvent) :
    ∀ once : LimiterOnce, (∀ e ∈ es, isStartingStateEvent e = false) →
      countWaitForStop (handleEnvEvents once es).2 ≤ (if once then 0 else 1) ∧
      ((handleEnvEvents once es).1 = once ∨ (handleEnvEvents once es).1 = true) := by
  induction es with
  | nil =>
    intro once _
    constructor
    · simp [handleEnvEvents, countWaitForStop]
    · left; rfl
  | cons e rest ih =>
    intro once hne
    have hrest : ∀ x ∈ rest, isStartingStateEvent x = false := by
      intro x hx; exact hne x (List.mem_cons_of_mem _ hx)
    have he : isStartingStateEvent e = false := hne e (List.mem_cons_self _ _)
    cases e with
    | resource hasSpace =>
      cases hasSpace with
      | true =>
        have h := ih once hrest
        constructor
        · simpa [handleEnvEvents, handleEnvEvent, countWaitForStop,
            countWaitForStop_append] using h.1
        · simpa [handleEnvEvents, handleEnvEvent] using h.2
      | false =>
        cases once with
        | true =>
          have h := ih true hrest
          constructor
          · simpa [handleEnvEvents, handleEnvEvent, diskSpaceLimiterTrigger,
              countWaitForStop, countWaitForStop_append] using h.1
          · simp [handleEnvEvents, handleEnvEvent, diskSpaceLimiterTrigger]
            rcases h.2 with h2 | h2 <;> simp [h2]
        | false =>
          have h := ih true hrest
          have hb : countWaitForStop (handleEnvEvents true rest).2 = 0 := by
            have h1 := h.1
            simp at h1
            exact h1
          constructor
          · simp [handleEnvEvents, handleEnvEvent, diskSpaceLimiterTrigger,
              countWaitForStop, countWaitForStop_append, hb]
          · simp [handleEnvEvents, handleEnvEvent, diskSpaceLimiterTrigger]
    | stateChange data =>
      have hdata : ¬ data = ProcessState.starting := by
        simpa [isStartingStateEvent] using he
      have h := ih once hrest
      constructor
      · simpa [handleEnvEvents, handleEnvEvent, hdata, countWaitForStop,
          countWaitForStop_append] using h.1
      · simpa [handleEnvEvents, handleEnvEvent, hdata] using h.2
    | dockerImagePullStatus =>
      have h := ih once hrest
      constructor
      · simpa [handleEnvEvents, handleEnvEvent, countWaitForStop,
          countWaitForStop_append] using h.1
      · simpa [handleEnvEvents, handleEnvEvent] using h.2

/-- C5: for every server the disk limiter fires at most once per start: over
any run of environment events containing no transition into the starting
state, an armed limiter invokes wait-for-stop at most once; when it fires it
publishes the daemon console message and invokes wait-for-stop with a
one-minute (60 second) deadline and kill-on-timeout true, and a consumed
limiter does nothing; the trigger is re-armed by a state change into the
starting state; and a resource event reporting no available space is what
triggers the limiter, followed by the stats event. -/
theorem C5_disk_limiter_one_shot (es : List EnvEvent) (once : LimiterOnce)
    (hnostart : ∀ e ∈ es, isStartingStateEvent e = false) :
    countWaitForStop (handleEnvEvents false es).2 ≤ 1 ∧
    diskSpaceLimiterTrigger false =
      (true,
        [ .daemonMessage "Server is exceeding the assigned disk space limit, stopping process now."
        , .waitForStop 60 true ]) ∧
    diskSpaceLimiterTrigger true = (true, []) ∧
    (handleEnvEvent once (.stateChange .starting)).1 = false ∧
    (handleEnvEvent once (.resource false)).2 =
      (diskSpaceLimiterTrigger once).2 ++ [.statsEvent] := by
  refine ⟨?_, rfl, rfl, ?_, ?_⟩
  · have h := (handleEnvEvents_fire_bound es false hnostart).1
    simpa using h
  · simp [handleEnvEvent, diskSpaceLimiterReset]
  · cases once <;> simp [handleEnvEvent, diskSpaceLimiterTrigger]

/-- Witness for C5 at a concrete run: two consecutive out-of-space resource
events fire the limiter only once. -/
theorem C5_disk_limiter_one_shot_witness :
    countWaitForStop
      (handleEnvEvents false [EnvEvent.resource false, EnvEvent.resource false]).2 ≤ 1 :=
  (C5_disk_limiter_one_shot [EnvEvent.resource false, EnvEvent.resource false] true
    (by decide)).1

/-- C8: at most 30 WebSocket connections may be open per server: the registry
size never exceeds 30 under connection events, and an attempt made while 30
or more connections are open is refused with an HTTP 400 error instead of
being upgraded. -/
theorem C8_websocket_cap (n m : Nat) (e : WsEvent) (hn : n ≤ 30) (hm : 30 ≤ m) :
    websocketStep n e ≤ 30 ∧
    getServerWebsocketAdmission m =
      WsAdmission.refused 400 "Too many open websocket connections." := by
  constructor
  · cases e with
    | connect =>
      by_cases h : n ≥ 30
      · simp [websocketStep, getServerWebsocketAdmission, h]
        omega
      · simp [websocketStep, getServerWebsocketAdmission, h]
        omega
    | disconnect =>
      simp [websocketStep]
      omega
  · simp [getServerWebsocketAdmission, hm]

/-- Witness for C8: a 31st connection attempt at exactly 30 open connections
is refused and the registry stays at 30. -/
theorem C8_websocket_cap_witness :
    websocketStep 30 WsEvent.connect ≤ 30 ∧
    getServerWebsocketAdmission 30 =
      WsAdmission.refused 400 "Too many open websocket connections." :=
  C8_websocket_cap 30 30 WsEvent.connect (by decide) (by decide)

/-! ## C1 and C10: inbound transfer verification and cleanup
(router/router_transfer.go, postTransfers) -/

/-- Observable side effects of the deferred cleanup function registered by
postTransfers, in the order the code performs them. -/
inductive TransferEffect
  | removeIncoming
  | publishTransferStatus (value : String)
  | removeFromManager
  | setTransferStatusCall (successful : Bool)
  | deleteServerFiles
  | setTransferring (value : Bool)
deriving DecidableEq

/-- The deferred cleanup of postTransfers.  It removes the transfer from the
incoming list; when the transfer was not successful it publishes a failure
transfer-status event and removes the server from the manager; it then calls
SetTransferStatus on the Panel client with the success flag.  When that call
errors it deletes the extracted server files (only when the transfer also
failed) and returns; when the call succeeds it clears the transferring flag
and publishes a success transfer-status event. -/
def postTransfersDeferred (successful panelCallOk : Bool) : List TransferEffect :=
  [TransferEffect.removeIncoming]
    ++ (if successful then []
        else [TransferEffect.publishTransferStatus "failure",
              TransferEffect.removeFromManager])
    ++ [TransferEffect.setTransferStatusCall successful]
    ++ (if panelCallOk then
          [TransferEffect.setTransferring false,
           TransferEffect.publishTransferStatus "success"]
        else if successful then []
        else [TransferEffect.deleteServerFiles])

/-- The backup-checksum verification loop of postTransfers: every calculated
backup checksum must have a received counterpart and the two must agree;
received checksums without a calculated counterpart are never consulted. -/
def verifyBackupChecksums :
    List (String × String) → List (String × String) → Except String Unit
  | [], _ => .ok ()
  | (backupName, calculated) :: rest, received =>
    match received.lookup backupName with
    | none => .error ("checksum missing for backup " ++ backupName)
    | some receivedChecksum =>
      if calculated ≠ receivedChecksum then
        .error ("backup " ++ backupName ++ " checksum mismatch")
      else
        verifyBackupChecksums rest received

/-- The post-stream verification phase of postTransfers: when an archive part
was stored, a missing or mismatching archive checksum aborts; then every
stored backup is checked against its received checksum; finally a stream
with no archive part at all aborts. -/
def verifyTransferParts (hasArchive : Bool)
    (archiveChecksum archiveChecksumReceived : String)
    (backupChecksumsCalculated backupChecksumsReceived : List (String × String)) :
    Except String Unit :=
  match (if hasArchive then
           if archiveChecksumReceived = "" then
             some "archive checksum missing"
           else if archiveChecksum ≠ archiveChecksumReceived then
             some "archive checksum mismatch"
           else none
         else none) with
  | some e => .error e
  | none =>
    match verifyBackupChecksums backupChecksumsCalculated backupChecksumsReceived with
    | .error e => .error e
    | .ok _ =>
      if ¬ hasArchive then .error "missing archive" else .ok ()

/-- Helper: a stored backup whose name has no received checksum forces the
backup verification loop into an error. -/
theorem verifyBackupChecksums_missing (calcd recvd : List (String × String))
    (name calculated : String) (hmem : (name, calculated) ∈ calcd)
    (hlook : recvd.lookup name = none) :
    ∃ e, verifyBackupChecksums calcd recvd = .error e := by
  induction calcd with
  | nil => cases hmem
  | cons hd tl ih =>
    obtain ⟨hdName, hdCalc⟩ := hd
    cases hl2 : recvd.lookup hdName with
    | none =>
      exact ⟨"checksum missing for backup " ++ hdName,
        by simp [verifyBackupChecksums, hl2]⟩
    | some r =>
      rcases List.mem_cons.mp hmem with heq | htl
      · injection heq with h1 h2
        subst h1
        rw [hlook] at hl2
        cases hl2
      · by_cases hne : hdCalc ≠ r
        · exact ⟨"backup " ++ hdName ++ " checksum mismatch",
            by simp [verifyBackupChecksums, hl2, hne]⟩
        · obtain ⟨e, he⟩ := ih htl
          exact ⟨e, by simp [verifyBackupChecksums, hl2, hne, he]⟩

/-- Helper: assoc-list lookup over an append tries the left list first. -/
theorem lookup_append (l₁ l₂ : List (String × String)) (k : String) :
    (l₁ ++ l₂).lookup k =
      match l₁.lookup k with
      | some v => some v
      | none => l₂.lookup k := by
  induction l₁ with
  | nil => simp [List.lookup]
  | cons hd tl ih =>
    obtain ⟨a, b⟩ := hd
    by_cases h : k = a
    · simp [List.lookup, h]
    · have hb : (k == a) = false := by simpa using h
      simp [List.lookup, hb, ih]

/-- Helper: assoc-list lookup misses exactly when no key of the list equals
the probe. -/
theorem lookup_eq_none_iff (l : List (String × String)) (k : String) :
    l.lookup k = none ↔ ∀ p ∈ l, p.1 ≠ k := by
  induction l with
  | nil => simp [List.lookup]
  | cons hd tl ih =>
    obtain ⟨a, b⟩ := hd
    by_cases h : k = a
    · subst h
      simp [List.lookup]
    · have hb : (k == a) = false := by simpa using h
      simp only [List.lookup, hb]
      rw [ih]
      constructor
      · intro htl
        intro p hp
        rcases List.mem_cons.mp hp with heq | hmem
        · subst heq
          exact fun hk => h hk.symm
        · exact htl p hmem
      · intro hall p hp
        exact hall p (List.mem_cons_of_mem _ hp)

/-- Helper: received checksums whose names are not among the stored backups
never change the outcome of the backup verification loop. -/
theorem verifyBackupChecksums_ignores_unmatched (calcd : List (String × String)) :
    ∀ recvd extra : List (String × String),
      (∀ p ∈ extra, calcd.lookup p.1 = none) →
      verifyBackupChecksums calcd (recvd ++ extra) = verifyBackupChecksums calcd recvd := by
  induction calcd with
  | nil => intro recvd extra _; rfl
  | cons hd tl ih =>
    intro recvd extra hextra
    obtain ⟨hdName, hdCalc⟩ := hd
    have hhead : ((hdName, hdCalc) :: tl).lookup hdName = some hdCalc := by
      simp [List.lookup]
    have hnokey : extra.lookup hdName = none := by
      rw [lookup_eq_none_iff]
      intro p hp hpk
      have h := hextra p hp
      rw [hpk, hhead] at h
      cases h
    have htail : ∀ p ∈ extra, tl.lookup p.1 = none := by
      intro p hp
      have h := hextra p hp
      by_cases hb : p.1 = hdName
      · rw [hb, hhead] at h
        cases h
      · have hbf : (p.1 == hdName) = false := by simpa using hb
        simpa [List.lookup, hbf] using h
    have happ : (recvd ++ extra).lookup hdName = recvd.lookup hdName := by
      rw [lookup_append]
      cases hl : recvd.lookup hdName with
      | none => simpa using hnokey
      | some r => rfl
    simp only [verifyBackupChecksums]
    rw [happ]
    cases hl : recvd.lookup hdName with
    | none => rfl
    | some r =>
      by_cases hne : hdCalc ≠ r
      · simp [hne]
      · simp only [if_neg hne]
        exact ih recvd extra htail

/-- C1 (code-bug evidence): an archive whose computed digest differs from the
received checksum_archive aborts the transfer, so the deferred cleanup runs
with the success flag false; but when the Panel report call succeeds, the
cleanup never deletes the extracted server files, and after publishing the
failure transfer-status event it also clears the transferring flag and
publishes a success transfer-status event; the files are deleted only when
the Panel report call itself fails. -/
theorem C1_checksum_mismatch_cleanup :
    (∀ calcDigest recvDigest : String, calcDigest ≠ recvDigest → recvDigest ≠ "" →
      verifyTransferParts true calcDigest recvDigest [] [] =
        .error "archive checksum mismatch") ∧
    TransferEffect.deleteServerFiles ∉ postTransfersDeferred false true ∧
    TransferEffect.publishTransferStatus "failure" ∈ postTransfersDeferred false true ∧
    TransferEffect.removeFromManager ∈ postTransfersDeferred false true ∧
    TransferEffect.setTransferStatusCall false ∈ postTransfersDeferred false true ∧
    TransferEffect.publishTransferStatus "success" ∈ postTransfersDeferred false true ∧
    TransferEffect.deleteServerFiles ∈ postTransfersDeferred false false := by
  refine ⟨?_, ?_, ?_, ?_, ?_, ?_, ?_⟩
  · intro calcDigest recvDigest hne hrecv
    simp [verifyTransferParts, hrecv, hne]
  all_goals decide

/-- Witness for C1 at a concrete mismatching transfer. -/
theorem C1_checksum_mismatch_cleanup_witness :
    verifyTransferParts true "aa" "bb" [] [] =
      Except.error "archive checksum mismatch" ∧
    TransferEffect.deleteServerFiles ∉ postTransfersDeferred false true :=
  ⟨C1_checksum_mismatch_cleanup.1 "aa" "bb" (by decide) (by decide),
   C1_checksum_mismatch_cleanup.2.1⟩

/-- C10: checksum pairing is enforced over the parts actually stored: a
stored backup with no received checksum part fails the transfer, a stream
with no archive part fails the transfer, and a received backup checksum with
no matching stored backup part is silently ignored (it does not change the
verification outcome). -/
theorem C10_checksum_pairing (hasArchive : Bool)
    (archiveChecksum archiveChecksumReceived : String)
    (calcd recvd extra : List (String × String)) :
    (∀ name calculated, (name, calculated) ∈ calcd → recvd.lookup name = none →
      ∃ e, verifyTransferParts hasArchive archiveChecksum archiveChecksumReceived
            calcd recvd = .error e) ∧
    (hasArchive = false →
      ∃ e, verifyTransferParts hasArchive archiveChecksum archiveChecksumReceived
            calcd recvd = .error e) ∧
    ((∀ p ∈ extra, calcd.lookup p.1 = none) →
      verifyTransferParts hasArchive archiveChecksum archiveChecksumReceived
          calcd (recvd ++ extra) =
        verifyTransferParts hasArchive archiveChecksum archiveChecksumReceived
          calcd recvd) := by
  refine ⟨?_, ?_, ?_⟩
  · intro name calculated hmem hlook
    obtain ⟨e, he⟩ := verifyBackupChecksums_missing calcd recvd name calculated hmem hlook
    unfold verifyTransferParts
    cases hpre : (if hasArchive then
           if archiveChecksumReceived = "" then
             some "archive checksum missing"
           else if archiveChecksum ≠ archiveChecksumReceived then
             some "archive checksum mismatch"
           else none
         else none) with
    | some e2 => exact ⟨e2, rfl⟩
    | none => exact ⟨e, by simp [he]⟩
  · intro hfalse
    subst hfalse
    unfold verifyTransferParts
    simp only [Bool.false_eq_true, if_false]
    cases hb : verifyBackupChecksums calcd recvd with
    | error e => exact ⟨e, rfl⟩
    | ok u => exact ⟨"missing archive", by simp⟩
  · intro hextra
    unfold verifyTransferParts
    rw [verifyBackupChecksums_ignores_unmatched calcd recvd extra hextra]

/-- Witness for C10 at a concrete stream: one stored backup without its
checksum part fails, a stream without an archive fails, and an unmatched
received checksum is ignored. -/
theorem C10_checksum_pairing_witness :
    (∃ e, verifyTransferParts true "aa" "aa" [("b1.tar.gz", "cc")] [] = .error e) ∧
    (∃ e, verifyTransferParts false "" "" [] [] = .error e) ∧
    verifyTransferParts true "aa" "aa" [] ([] ++ [("b2.tar.gz", "dd")]) =
      verifyTransferParts true "aa" "aa" [] [] := by
  have h := C10_checksum_pairing true "aa" "aa" [("b1.tar.gz", "cc")] [] []
  have h2 := C10_checksum_pairing false "" "" [] [] []
  have h3 := C10_checksum_pairing true "aa" "aa" [] [] [("b2.tar.gz", "dd")]
  exact ⟨h.1 "b1.tar.gz" "cc" (by decide) (by decide),
         h2.2.1 rfl,
         h3.2.2 (by decide)⟩

/-! ## C7: configuration replacement value coercion (parser/helpers.go) -/

/-- The value types reported by the jsonparser library for a parsed JSON
value (the declared type of a ReplaceWith expression in the egg
configuration). -/
inductive JsonValueType
  | notExist
  | string
  | number
  | object
  | array
  | boolean
  | null
  | unknown
deriving DecidableEq

/-- A value written into the target document by sjson.Set: the coercion in
parser/helpers.go only ever produces a boolean, an integer or a string. -/
inductive SjsonValue
  | boolean (b : Bool)
  | integer (n : Int)
  | str (s : String)
deriving DecidableEq

/-- Go strconv.ParseBool: accepts exactly the twelve literal spellings and
fails on anything else. -/
def parseBoolGo (value : String) : Option Bool :=
  if value = "1" ∨ value = "t" ∨ value = "T" ∨ value = "TRUE" ∨
      value = "true" ∨ value = "True" then
    some true
  else if value = "0" ∨ value = "f" ∨ value = "F" ∨ value = "FALSE" ∨
      value = "false" ∨ value = "False" then
    some false
  else
    none

/-- Decimal digit value of a character, if it is a digit. -/
def digitVal (c : Char) : Option Nat :=
  if '0' ≤ c ∧ c ≤ '9' then some (c.toNat - Char.toNat '0') else none

/-- Parse a non-empty all-digit run into a natural number. -/
def parseDigits (cs : List Char) : Option Nat :=
  if cs = [] then none
  else
    cs.foldl
      (fun acc c =>
        match acc, digitVal c with
        | some n, some d => some (n * 10 + d)
        | _, _ => none)
      (some 0)

/-- Go strconv.Atoi: an optional sign followed by at least one decimal
digit, rejecting values outside the signed 64-bit range. -/
def atoiGo (value : String) : Option Int :=
  let signed : Bool × List Char :=
    match value.data with
    | '-' :: rest => (true, rest)
    | '+' :: rest => (false, rest)
    | cs => (false, cs)
  match parseDigits signed.2 with
  | none => none
  | some n =>
    let v : Int := if signed.1 then -(n : Int) else (n : Int)
    if v < -(2 ^ 63) ∨ (2 ^ 63 - 1) < v then none else some v

/-- ConfigurationFileReplacement.getKeyValue: when the declared type of the
ReplaceWith value is boolean the value is parsed with ParseBool (errors
ignored, yielding false); otherwise an integer parse is attempted; otherwise
the string is kept. -/
def getKeyValue (replaceWithType : JsonValueType) (value : String) : SjsonValue :=
  if replaceWithType = .boolean then
    .boolean ((parseBoolGo value).getD false)
  else
    match atoiGo value with
    | some v => .integer v
    | none => .str value

/-- Outcome of setValueWithSjson on the target document: either the document
is returned unchanged or a single value is written at the path. -/
inductive SjsonWrite
  | unchanged
  | set (v : SjsonValue)
deriving DecidableEq

/-- Abstraction of the Go regexp operations used by the regex if-value
branch (regexp.Compile, MatchString, ReplaceAllString are library code
external to this repository). -/
structure RegexOps where
  compileOk : String → Bool
  matchString : String → String → Bool
  replaceAllString : String → String → String → String

/-- ConfigurationFileReplacement.setValueWithSjson: an if-value gate (either
a regex substitution or a literal equality check against the existing value)
followed by the type coercion of the replacement value; the coercion is
keyed on the declared type of the ReplaceWith value, never on the type of
the existing value.  The existing value at the path is passed as an Option
standing for the gjson lookup. -/
def setValueWithSjson (ops : RegexOps) (ifValue : String)
    (existing : Option String) (replaceWithType : JsonValueType)
    (value : String) : SjsonWrite :=
  let gate : Option SjsonWrite :=
    if ifValue ≠ "" then
      if "regex:".isPrefixOf ifValue then
        match existing with
        | none => some .unchanged
        | some v =>
          let pat := ifValue.drop "regex:".length
          if ¬ ops.compileOk pat then some .unchanged
          else if ops.matchString pat v then
            some (.set (.str (ops.replaceAllString pat v value)))
          else some .unchanged
      else
        match existing with
        | none => some .unchanged
        | some v => if v ≠ ifValue then some .unchanged else none
    else none
  match gate with
  | some w => w
  | none =>
    if replaceWithType = .boolean then
      .set (.boolean ((parseBoolGo value).getD false))
    else
      match atoiGo value with
      | some v => .set (.integer v)
      | none => .set (.str value)

/-- The coercion rule as the specification words it, keyed on the type of
the EXISTING value in the target document; kept for comparison with the
coercion the source actually performs. -/
def specCoerceByExistingType (existingType : JsonValueType) (value : String) :
    SjsonValue :=
  if existingType = .boolean then
    .boolean ((parseBoolGo value).getD false)
  else
    match atoiGo value with
    | some v => .integer v
    | none => .str value

/-- Regex operations that never match; used to instantiate concrete runs. -/
def inertRegexOps : RegexOps :=
  { compileOk := fun _ => true
    matchString := fun _ _ => false
    replaceAllString := fun _ _ _ => "" }

/-- C7 counterexample: with an existing boolean value true and a replacement
declared as the string value yes, the code writes the string yes, while the
claim (coercion keyed on the existing boolean) would demand a boolean. -/
theorem C7_coercion_counterexample :
    setValueWithSjson inertRegexOps "" (some "true") JsonValueType.string "yes" =
      SjsonWrite.set (SjsonValue.str "yes") ∧
    specCoerceByExistingType JsonValueType.boolean "yes" =
      SjsonValue.boolean false ∧
    SjsonValue.str "yes" ≠ SjsonValue.boolean false := by
  decide

/-- C7 (amended): the coercion is keyed on the declared type of the
replacement value: a boolean-typed replacement is parsed and written as a
boolean, any other replacement is written as an integer when it parses as
one and as a string otherwise; with an empty if-value the written value is
exactly this coercion regardless of the existing value. -/
theorem C7_replacement_type_coercion (ops : RegexOps) (existing : Option String)
    (replaceWithType : JsonValueType) (value : String) :
    setValueWithSjson ops "" existing replaceWithType value =
      .set (getKeyValue replaceWithType value) ∧
    (replaceWithType = .boolean →
      getKeyValue replaceWithType value = .boolean ((parseBoolGo value).getD false)) ∧
    (replaceWithType ≠ .boolean → ∀ v, atoiGo value = some v →
      getKeyValue replaceWithType value = .integer v) ∧
    (replaceWithType ≠ .boolean → atoiGo value = none →
      getKeyValue replaceWithType value = .str value) := by
  refine ⟨?_, ?_, ?_, ?_⟩
  · by_cases hb : replaceWithType = .boolean
    · simp [setValueWithSjson, getKeyValue, hb]
    · cases ha : atoiGo value with
      | none => simp [setValueWithSjson, getKeyValue, hb, ha]
      | some v => simp [setValueWithSjson, getKeyValue, hb, ha]
  · intro hb
    simp [getKeyValue, hb]
  · intro hb v ha
    simp [getKeyValue, hb, ha]
  · intro hb ha
    simp [getKeyValue, hb, ha]

/-- Witness for C7 at a concrete replacement: a number-typed replacement
42 is written as the integer 42. -/
theorem C7_replacement_type_coercion_witness :
    setValueWithSjson inertRegexOps "" none JsonValueType.number "42" =
      SjsonWrite.set (getKeyValue JsonValueType.number "42") ∧
    getKeyValue JsonValueType.number "42" = SjsonValue.integer 42 :=
  ⟨(C7_replacement_type_coercion inertRegexOps none JsonValueType.number "42").1,
   (C7_replacement_type_coercion inertRegexOps none JsonValueType.number "42").2.2.1
     (by decide) 42 (by decide)⟩

/-! ## C6: egg feature-match detection (server/config_parser.go, onConsoleOutput) -/

/-- Whether the needle occurs as a contiguous run inside the haystack. -/
def containsChars (hay needle : List Char) : Bool :=
  if needle.isPrefixOf hay then true
  else
    match hay with
    | [] => false
    | _ :: rest => containsChars rest needle

/-- Go strings.Contains: substring containment, here over the character
lists of the two strings. -/
def containsSubstring (s substr : String) : Bool :=
  containsChars s.data substr.data

/-- Payload of a feature-match event: the feature key, the pattern that
matched, and the console line. -/
structure FeatureMatchPayload where
  key : String
  pattern : String
  line : String
deriving DecidableEq

/-- Modelled from the spec: Server.IsRunning (declared outside the provided
sources) reports whether the state machine is in the running or starting
state. -/
def isRunningModel (st : ProcessState) : Bool :=
  st = ProcessState.running || st = ProcessState.starting

/-- The inner pattern loop of the feature section of onConsoleOutput: return
the first pattern of this feature whose lowercase form occurs in the
lowercase console line. -/
def firstMatchingPattern (key : String) (patterns : List String)
    (outputLower : String) : Option (String × String) :=
  match patterns with
  | [] => none
  | pattern :: rest =>
    if containsSubstring outputLower pattern.toLower then some (key, pattern)
    else firstMatchingPattern key rest outputLower

/-- The labeled double loop of the feature section: scan the features in
order and stop at the first feature pattern contained in the line. -/
def featureScan (features : List (String × List String)) (outputLower : String) :
    Option (String × String) :=
  match features with
  | [] => none
  | (key, patterns) :: rest =>
    match firstMatchingPattern key patterns outputLower with
    | some kp => some kp
    | none => featureScan rest outputLower

/-- The feature-match portion of onConsoleOutput: nothing happens unless the
server is starting or running; the line is ANSI-stripped when configured
(twice while starting, because the done-line section already stripped it);
the first matching (key, pattern) pair in iteration order yields exactly one
feature-match event carrying the key, the pattern and the processed line.
The strip function stands for stripAnsiRegex.ReplaceAll. -/
def onConsoleOutputFeatures (state : ProcessState) (stripAnsi : Bool)
    (strip : String → String) (features : Option (List (String × List String)))
    (data : String) : List FeatureMatchPayload :=
  if state ≠ ProcessState.starting ∧ isRunningModel state = false then []
  else
    let v := data
    let v := if state = ProcessState.starting ∧ stripAnsi then strip v else v
    match features with
    | none => []
    | some egg =>
      let v := if stripAnsi then strip v else v
      let output := v
      let outputLower := output.toLower
      match featureScan egg outputLower with
      | some kp => [⟨kp.1, kp.2, output⟩]
      | none => []

/-- Enumeration of all (key, pattern) pairs in iteration order. -/
def featurePairs (features : List (String × List String)) : List (String × String) :=
  features.flatMap fun kp => kp.2.map fun pattern => (kp.1, pattern)

/-- Helper: the inner pattern loop returns the first matching pattern of the
feature, or certifies that none of its patterns matches. -/
theorem firstMatchingPattern_spec (key : String) (patterns : List String)
    (low : String) :
    (firstMatchingPattern key patterns low = none →
      ∀ p ∈ patterns, containsSubstring low p.toLower = false) ∧
    (∀ kp, firstMatchingPattern key patterns low = some kp →
      kp.1 = key ∧
      ∃ l₁ l₂, patterns = l₁ ++ kp.2 :: l₂ ∧
        containsSubstring low kp.2.toLower = true ∧
        ∀ q ∈ l₁, containsSubstring low q.toLower = false) := by
  induction patterns with
  | nil =>
    refine ⟨fun _ p hp => absurd hp (List.not_mem_nil p), fun kp h => ?_⟩
    simp [firstMatchingPattern] at h
  | cons pattern rest ih =>
    by_cases hc : containsSubstring low pattern.toLower = true
    · refine ⟨fun hnone => ?_, fun kp hsome => ?_⟩
      · simp [firstMatchingPattern, hc] at hnone
      · simp only [firstMatchingPattern, hc, if_true] at hsome
        injection hsome with h
        subst h
        exact ⟨rfl, [], rest, rfl, hc, fun q hq => absurd hq (List.not_mem_nil q)⟩
    · have hcf : containsSubstring low pattern.toLower = false := by
        simpa using hc
      refine ⟨fun hnone => ?_, fun kp hsome => ?_⟩
      · simp only [firstMatchingPattern, hcf, Bool.false_eq_true, if_false] at hnone
        intro p hp
        rcases List.mem_cons.mp hp with heq | hmem
        · subst heq; exact hcf
        · exact ih.1 hnone p hmem
      · simp only [firstMatchingPattern, hcf, Bool.false_eq_true, if_false] at hsome
        obtain ⟨hkey, l₁, l₂, hsplit, hmatch, hbefore⟩ := ih.2 kp hsome
        refine ⟨hkey, pattern :: l₁, l₂, by simp [hsplit], hmatch, ?_⟩
        intro q hq
        rcases List.mem_cons.mp hq with heq | hmem
        · subst heq; exact hcf
        · exact hbefore q hmem

/-- Helper: the double loop returns the first matching pair in the flattened
iteration order, or certifies that no pair matches. -/
theorem featureScan_spec (features : List (String × List String)) (low : String) :
    (featureScan features low = none →
      ∀ kp ∈ featurePairs features, containsSubstring low kp.2.toLower = false) ∧
    (∀ kp, featureScan features low = some kp →
      ∃ l₁ l₂, featurePairs features = l₁ ++ kp :: l₂ ∧
        containsSubstring low kp.2.toLower = true ∧
        ∀ q ∈ l₁, containsSubstring low q.2.toLower = false) := by
  induction features with
  | nil =>
    refine ⟨fun _ kp hkp => ?_, fun kp h => ?_⟩
    · simp [featurePairs] at hkp
    · simp [featureScan] at h
  | cons f rest ih =>
    obtain ⟨key, patterns⟩ := f
    have hpairs : featurePairs ((key, patterns) :: rest)
        = (patterns.map fun pattern => (key, pattern)) ++ featurePairs rest := by
      simp [featurePairs]
    cases hfmp : firstMatchingPattern key patterns low with
    | none =>
      refine ⟨fun hnone => ?_, fun kp hsome => ?_⟩
      · intro kp hkp
        rw [hpairs] at hkp
        rcases List.mem_append.mp hkp with hmem | hmem
        · obtain ⟨p, hp, hpe⟩ := List.mem_map.mp hmem
          have := (firstMatchingPattern_spec key patterns low).1 hfmp p hp
          rw [← hpe] at *
          simpa using this
        · simp only [featureScan, hfmp] at hnone
          exact ih.1 hnone kp hmem
      · simp only [featureScan, hfmp] at hsome
        obtain ⟨l₁, l₂, hsplit, hmatch, hbefore⟩ := ih.2 kp hsome
        refine ⟨(patterns.map fun pattern => (key, pattern)) ++ l₁, l₂, ?_, hmatch, ?_⟩
        · rw [hpairs, hsplit, List.append_assoc]
        · intro q hq
          rcases List.mem_append.mp hq with hmem | hmem
          · obtain ⟨p, hp, hpe⟩ := List.mem_map.mp hmem
            have := (firstMatchingPattern_spec key patterns low).1 hfmp p hp
            rw [← hpe]
            simpa using this
          · exact hbefore q hmem
    | some kp0 =>
      refine ⟨fun hnone => ?_, fun kp hsome => ?_⟩
      · simp [featureScan, hfmp] at hnone
      · simp only [featureScan, hfmp] at hsome
        injection hsome with h
        subst h
        obtain ⟨hkey, l₁, l₂, hsplit, hmatch, hbefore⟩ :=
          (firstMatchingPattern_spec key patterns low).2 kp0 hfmp
        refine ⟨l₁.map fun pattern => (key, pattern),
          (l₂.map fun pattern => (key, pattern)) ++ featurePairs rest, ?_, hmatch, ?_⟩
        · rw [hpairs, hsplit]
          simp only [List.map_append, List.map_cons]
          rw [← hkey]
          simp [List.append_assoc]
        · intro q hq
          obtain ⟨p, hp, hpe⟩ := List.mem_map.mp hq
          have := hbefore p hp
          rw [← hpe]
          simpa using this

/-- The console line as the feature section sees it: ANSI-stripped when
configured (twice while starting, because the done-line section strips
first), otherwise untouched. -/
def processedConsoleLine (state : ProcessState) (stripAnsi : Bool)
    (strip : String → String) (data : String) : String :=
  let v := data
  let v := if state = ProcessState.starting ∧ stripAnsi then strip v else v
  if stripAnsi then strip v else v

/-- Helper: while starting or running, the feature section publishes exactly
the event produced by scanning the processed line. -/
theorem onConsoleOutputFeatures_eq (state : ProcessState) (stripAnsi : Bool)
    (strip : String → String) (egg : List (String × List String)) (data : String)
    (hstate : state = ProcessState.starting ∨ state = ProcessState.running) :
    onConsoleOutputFeatures state stripAnsi strip (some egg) data =
      (match featureScan egg (processedConsoleLine state stripAnsi strip data).toLower with
       | some kp => [⟨kp.1, kp.2, processedConsoleLine state stripAnsi strip data⟩]
       | none => []) := by
  rcases hstate with h | h <;> subst h <;> cases stripAnsi <;>
    simp [onConsoleOutputFeatures, processedConsoleLine, isRunningModel]

/-- C6: for a console line of a server in the starting or running state with
configured egg feature patterns, at most one feature-match event is
published; any published event carries the processed (ANSI-stripped when
configured) line and a case-insensitively matching pattern that is the first
match in iteration order, with no earlier pattern matching; and whenever
some pattern matches the line, exactly one event is published. -/
theorem C6_feature_match (state : ProcessState) (stripAnsi : Bool)
    (strip : String → String) (egg : List (String × List String)) (data : String)
    (hstate : state = ProcessState.starting ∨ state = ProcessState.running) :
    (onConsoleOutputFeatures state stripAnsi strip (some egg) data).length ≤ 1 ∧
    (∀ e ∈ onConsoleOutputFeatures state stripAnsi strip (some egg) data,
      e.line = processedConsoleLine state stripAnsi strip data ∧
      containsSubstring (processedConsoleLine state stripAnsi strip data).toLower
        e.pattern.toLower = true ∧
      ∃ l₁ l₂, featurePairs egg = l₁ ++ (e.key, e.pattern) :: l₂ ∧
        ∀ q ∈ l₁,
          containsSubstring (processedConsoleLine state stripAnsi strip data).toLower
            q.2.toLower = false) ∧
    ((∃ kp ∈ featurePairs egg,
        containsSubstring (processedConsoleLine state stripAnsi strip data).toLower
          kp.2.toLower = true) →
      (onConsoleOutputFeatures state stripAnsi strip (some egg) data).length = 1) := by
  rw [onConsoleOutputFeatures_eq state stripAnsi strip egg data hstate]
  cases hscan : featureScan egg (processedConsoleLine state stripAnsi strip data).toLower with
  | none =>
    refine ⟨by simp, by simp, ?_⟩
    rintro ⟨kp, hkp, hc⟩
    have hnone := (featureScan_spec egg
      (processedConsoleLine state stripAnsi strip data).toLower).1 hscan kp hkp
    rw [hnone] at hc
    cases hc
  | some kp =>
    obtain ⟨l₁, l₂, hsplit, hmatch, hbefore⟩ := (featureScan_spec egg
      (processedConsoleLine state stripAnsi strip data).toLower).2 kp hscan
    refine ⟨by simp, ?_, fun _ => by simp⟩
    intro e he
    simp only [List.mem_singleton] at he
    subst he
    exact ⟨rfl, hmatch, l₁, l₂, by simpa using hsplit, hbefore⟩

/-- C6 counterexample: a console line arriving while the server is in the
stopping state is never tested: no feature-match event is published even
though a configured pattern occurs verbatim in the line, so the claim as
stated over every console line fails at this input. -/
theorem C6_feature_match_counterexample :
    onConsoleOutputFeatures ProcessState.stopping false id
      (some [("k", ["x"])]) "x" = [] ∧
    containsSubstring "x" "x" = true := by
  decide

/-- Witness for C6 at a concrete line: a single configured pattern matches
case-insensitively and exactly one event is published. -/
theorem C6_feature_match_witness :
    (onConsoleOutputFeatures ProcessState.running false id
      (some [("pvp", ["no permission"])]) "You have NO PERMISSION to do this").length ≤ 1 :=
  (C6_feature_match ProcessState.running false id [("pvp", ["no permission"])]
    "You have NO PERMISSION to do this" (Or.inr rfl)).1

/-! ## C2: outbound transfer multipart field order
(server/transfer/source.go PushArchiveToTarget, archive.go StreamBackups and
StreamInstallLogs) -/

/-- A part of the multipart stream: a streamed file part or a plain string
field. -/
inductive FieldBody
  | file (content : Bytes)
  | field (value : String)
deriving DecidableEq

/-- The lowercase table of Go encoding/hex. -/
def hexTable : List Char := "0123456789abcdef".data

/-- Go hex.EncodeToString: two lowercase hex characters per byte, high
nibble first. -/
def hexEncode (bs : Bytes) : String :=
  ⟨bs.flatMap fun b => [hexTable.getD (b % 256 / 16) '0', hexTable.getD (b % 16) '0']⟩

/-- A directory entry of the server backup directory as seen by
StreamBackups, together with the bytes of the backup file it names. -/
structure DirEntry where
  name : String
  isDir : Bool
  content : Bytes
deriving DecidableEq

/-- Go strings.HasSuffix, over the character lists of the two strings. -/
def hasSuffixGo (s suffix : String) : Bool :=
  suffix.data.reverse.isPrefixOf s.data.reverse

/-- The filter of StreamBackups: regular entries whose name ends in .tar.gz
and equals uuid.tar.gz for one of the selected backup uuids. -/
def backupsToTransfer (entries : List DirEntry) (backupUUIDs : List String) :
    List DirEntry :=
  entries.filter fun entry =>
    !entry.isDir && hasSuffixGo entry.name ".tar.gz" &&
      (backupUUIDs.map (· ++ ".tar.gz")).contains entry.name

/-- StreamBackups: nothing when no backups are selected; otherwise, for each
matching backup file in directory order, a backup_<name> file part streamed
through a SHA-256 hasher immediately followed by a checksum_backup_<name>
field holding the lowercase hex digest of the streamed bytes. -/
def streamBackupsFields (digest : Bytes → Bytes) (entries : List DirEntry)
    (backupUUIDs : List String) : List (String × FieldBody) :=
  if backupUUIDs = [] then []
  else
    (backupsToTransfer entries backupUUIDs).flatMap fun entry =>
      [("backup_" ++ entry.name, .file entry.content),
       ("checksum_backup_" ++ entry.name, .field (hexEncode (digest entry.content)))]

/-- StreamInstallLogs: an install_logs file part when the install log file
exists, nothing otherwise (read errors are also skipped silently). -/
def streamInstallLogsFields (installLogs : Option Bytes) : List (String × FieldBody) :=
  match installLogs with
  | none => []
  | some logs => [("install_logs", .file logs)]

/-- The multipart body written by PushArchiveToTarget: the archive file part
(streamed through a SHA-256 hasher), its checksum_archive field, the backup
parts when any backup uuids were selected, and finally the install logs. -/
def pushArchiveFields (digest : Bytes → Bytes) (archive : Bytes)
    (entries : List DirEntry) (backupUUIDs : List String)
    (installLogs : Option Bytes) : List (String × FieldBody) :=
  ("archive", .file archive)
    :: ("checksum_archive", .field (hexEncode (digest archive)))
    :: ((if backupUUIDs.length > 0 then
          streamBackupsFields digest entries backupUUIDs
        else [])
        ++ streamInstallLogsFields installLogs)

/-- Helper: a byte always encodes to characters of the hex table. -/
theorem hexTable_getD_mem (i : Nat) (h : i < 16) :
    hexTable.contains (hexTable.getD i '0') = true := by
  interval_cases i <;> decide

/-- Helper: every character emitted by hexEncode is a lowercase hex digit. -/
theorem hexEncode_lower (bs : Bytes) :
    ((hexEncode bs).data.all fun c => hexTable.contains c) = true := by
  induction bs with
  | nil => decide
  | cons b rest ih =>
    have h1 : b % 256 / 16 < 16 := by omega
    have h2 : b % 16 < 16 := by omega
    simp only [hexEncode, List.flatMap_cons, List.cons_append, List.nil_append,
      List.all_cons] at ih ⊢
    rw [hexTable_getD_mem _ h1, hexTable_getD_mem _ h2]
    simpa using ih

/-- Helper: with no selected uuids the backup filter keeps nothing. -/
theorem backupsToTransfer_nil (entries : List DirEntry) :
    backupsToTransfer entries [] = [] := by
  simp [backupsToTransfer]

/-- C2 counterexample: a transfer that selects backup uuid u1 while no
u1.tar.gz file exists in the backup directory produces a body with no
backup_u1.tar.gz field at all, contradicting the claim that the body
contains a field for each selected backup. -/
theorem C2_multipart_counterexample :
    ("backup_" ++ "u1" ++ ".tar.gz") ∉
      (pushArchiveFields (fun _ => List.replicate 32 0) [0] [] ["u1"] none).map
        Prod.fst := by
  decide

/-- C2 (amended): the multipart body contains, in this order, the archive
file part, the checksum_archive field holding the lowercase hex digest of
the archive bytes, then for each selected backup whose uuid.tar.gz file
exists in the backup directory (in directory order) a backup_<uuid>.tar.gz
part immediately followed by checksum_backup_<uuid>.tar.gz holding that
backup's lowercase hex digest, and finally the install_logs field when
install logs exist; every checksum is lowercase hex. -/
theorem C2_multipart_field_order (digest : Bytes → Bytes) (archive : Bytes)
    (entries : List DirEntry) (backupUUIDs : List String)
    (installLogs : Option Bytes) :
    pushArchiveFields digest archive entries backupUUIDs installLogs =
      ("archive", FieldBody.file archive)
        :: ("checksum_archive", FieldBody.field (hexEncode (digest archive)))
        :: (((backupsToTransfer entries backupUUIDs).flatMap fun entry =>
              [("backup_" ++ entry.name, FieldBody.file entry.content),
               ("checksum_backup_" ++ entry.name,
                 FieldBody.field (hexEncode (digest entry.content)))])
            ++ (match installLogs with
                | none => []
                | some logs => [("install_logs", FieldBody.file logs)])) ∧
    ((hexEncode (digest archive)).data.all fun c => hexTable.contains c) = true ∧
    (∀ entry ∈ backupsToTransfer entries backupUUIDs,
      ∃ l₁ l₂, pushArchiveFields digest archive entries backupUUIDs installLogs =
        l₁ ++ ("backup_" ++ entry.name, FieldBody.file entry.content)
           :: ("checksum_backup_" ++ entry.name,
                FieldBody.field (hexEncode (digest entry.content)))
           :: l₂) := by
  have hbody : pushArchiveFields digest archive entries backupUUIDs installLogs =
      ("archive", FieldBody.file archive)
        :: ("checksum_archive", FieldBody.field (hexEncode (digest archive)))
        :: (((backupsToTransfer entries backupUUIDs).flatMap fun entry =>
              [("backup_" ++ entry.name, FieldBody.file entry.content),
               ("checksum_backup_" ++ entry.name,
                 FieldBody.field (hexEncode (digest entry.content)))])
            ++ streamInstallLogsFields installLogs) := by
    cases backupUUIDs with
    | nil =>
      simp [pushArchiveFields, streamBackupsFields, backupsToTransfer_nil]
    | cons u us =>
      simp [pushArchiveFields, streamBackupsFields]
  refine ⟨?_, hexEncode_lower (digest archive), ?_⟩
  · rw [hbody]
    cases installLogs <;> rfl
  · intro entry hmem
    obtain ⟨l₁, l₂, hsplit⟩ := List.append_of_mem hmem
    refine ⟨("archive", FieldBody.file archive)
        :: ("checksum_archive", FieldBody.field (hexEncode (digest archive)))
        :: (l₁.flatMap fun e =>
              [("backup_" ++ e.name, FieldBody.file e.content),
               ("checksum_backup_" ++ e.name,
                 FieldBody.field (hexEncode (digest e.content)))]),
      (l₂.flatMap fun e =>
          [("backup_" ++ e.name, FieldBody.file e.content),
           ("checksum_backup_" ++ e.name,
             FieldBody.field (hexEncode (digest e.content)))])
        ++ streamInstallLogsFields installLogs, ?_⟩
    rw [hbody, hsplit]
    simp

/-! ## C3: disk quota enforcement during archive creation and extraction
(server/filesystem/compress.go, CompressFiles and extractStream) -/

/-- Disk accounting state of a server filesystem: the running counter of
consumed bytes and the configured limit. -/
structure QuotaFS where
  diskUsed : Int
  diskLimit : Int
deriving DecidableEq

/-- Modelled from the spec: Filesystem.HasSpaceFor (declared outside the
provided sources): with a positive limit, a write of the given size is
allowed only when it would not push the running counter past the limit;
without a limit everything is allowed. -/
def HasSpaceFor (fs : QuotaFS) (size : Int) : Bool :=
  fs.diskLimit ≤ 0 || fs.diskUsed + size ≤ fs.diskLimit

/-- Modelled from the spec: Filesystem.addDisk adds to the running counter
of consumed bytes (atomically in the source). -/
def addDisk (fs : QuotaFS) (size : Int) : QuotaFS :=
  { fs with diskUsed := fs.diskUsed + size }

/-- Modelled from the spec: UnixFS.CanFit reports whether the given number
of additional bytes stays within the limit. -/
def CanFit (fs : QuotaFS) (size : Int) : Bool :=
  fs.diskLimit ≤ 0 || fs.diskUsed + size ≤ fs.diskLimit

/-- Result of the single-file decompression loop of extractStream: final
accounting state, the bytes of the destination file (created before the
loop and never removed by the loop), and whether a disk-space error was
returned. -/
structure ExtractResult where
  fs : QuotaFS
  fileOnDisk : Bytes
  quotaError : Bool
deriving DecidableEq

/-- The chunked read loop of extractStream for single-file compression:
each non-empty chunk is quota-checked with HasSpaceFor before it is
written; a failing check returns the disk-space error at once, leaving the
chunks already written in the destination file; a passing check writes the
chunk and adds its size to the counter. -/
def extractStreamChunks (fs : QuotaFS) (written : Bytes) :
    List Bytes → ExtractResult
  | [] => ⟨fs, written, false⟩
  | c :: rest =>
    if 0 < c.length then
      if HasSpaceFor fs (c.length : Int) then
        extractStreamChunks (addDisk fs (c.length : Int)) (written ++ c) rest
      else ⟨fs, written, true⟩
    else
      extractStreamChunks fs written rest

/-- Result of the accounting tail of CompressFiles: whether archive bytes
reached the disk before the quota check, the archive file left on disk (none
when removed), the final accounting state, and whether a disk-space error
was returned. -/
structure CompressTailResult where
  wroteBeforeCheck : Bool
  fileOnDisk : Option Int
  fs : QuotaFS
  diskSpaceError : Bool
deriving DecidableEq

/-- The quota tail of CompressFiles: the archiver has already streamed the
whole archive into the destination file through the counting writer; only
then is CanFit consulted; on failure the file is removed and a disk-space
error returned, on success the byte count is added to the counter. -/
def compressFilesTail (fs : QuotaFS) (bytesWritten : Int) : CompressTailResult :=
  if ¬ CanFit fs bytesWritten then
    ⟨true, none, fs, true⟩
  else
    ⟨true, some bytesWritten, addDisk fs bytesWritten, false⟩

/-- Helper: the chunk loop never pushes the counter past a positive limit,
accounts exactly the bytes appended to the file, and only ever extends the
already-written prefix. -/
theorem extractStreamChunks_spec (chunks : List Bytes) :
    ∀ (fs : QuotaFS) (written : Bytes),
      fs.diskUsed ≤ fs.diskLimit → 0 < fs.diskLimit →
      (extractStreamChunks fs written chunks).fs.diskUsed ≤ fs.diskLimit ∧
      ((extractStreamChunks fs written chunks).fileOnDisk.length : Int)
          - (written.length : Int) =
        (extractStreamChunks fs written chunks).fs.diskUsed - fs.diskUsed ∧
      ∃ rest, (extractStreamChunks fs written chunks).fileOnDisk = written ++ rest := by
  induction chunks with
  | nil =>
    intro fs written hle _
    exact ⟨hle, by simp [extractStreamChunks], [], by simp [extractStreamChunks]⟩
  | cons c rest ih =>
    intro fs written hle hpos
    by_cases hlen : 0 < c.length
    · by_cases hfit : HasSpaceFor fs (c.length : Int) = true
      · have hfs2 : (addDisk fs (c.length : Int)).diskUsed ≤ (addDisk fs (c.length : Int)).diskLimit := by
          simp only [HasSpaceFor, Bool.or_eq_true, decide_eq_true_eq] at hfit
          rcases hfit with h | h
          · omega
          · simp [addDisk]
            exact h
        have h2 := ih (addDisk fs (c.length : Int)) (written ++ c) hfs2 hpos
        obtain ⟨ha, hb, suffix, hc⟩ := h2
        simp only [extractStreamChunks, hlen, if_pos, hfit, if_true]
        refine ⟨by simpa [addDisk] using ha, ?_, c ++ suffix, by simp [hc]⟩
        rw [hc] at hb ⊢
        simp [addDisk] at hb ⊢
        omega
      · simp only [extractStreamChunks, hlen, if_pos, hfit, Bool.false_eq_true, if_false]
        exact ⟨hle, by simp, [], by simp⟩
    · simp only [extractStreamChunks, hlen, if_false]
      exact ih fs written hle hpos

/-- C3 counterexample: extracting two one-byte chunks into a filesystem with
limit 1 returns a disk-space error but leaves the first chunk on disk, so a
partial file remains; and CompressFiles commits the archive bytes to disk
before the quota check fires. -/
theorem C3_quota_counterexample :
    (extractStreamChunks ⟨0, 1⟩ [] [[7], [8]]).quotaError = true ∧
    (extractStreamChunks ⟨0, 1⟩ [] [[7], [8]]).fileOnDisk = [7] ∧
    (extractStreamChunks ⟨0, 1⟩ [] [[7], [8]]).fileOnDisk ≠ [] ∧
    (compressFilesTail ⟨0, 1⟩ 2).wroteBeforeCheck = true ∧
    (compressFilesTail ⟨0, 1⟩ 2).diskSpaceError = true := by
  decide

/-- C3 (amended): extractStream checks the quota before each chunk, so the
counter never passes a positive limit and the destination file holds
exactly the accounted bytes, but on quota exhaustion the already-written
prefix remains on disk; CompressFiles streams the whole archive to disk
first and only then consults CanFit, removing the file (leaving no file,
but only after the bytes touched disk) and returning a disk-space error
on failure, and accounting the bytes on success. -/
theorem C3_quota_enforcement (fs : QuotaFS) (chunks : List Bytes)
    (bytesWritten : Int) (hused : fs.diskUsed ≤ fs.diskLimit)
    (hpos : 0 < fs.diskLimit) :
    ((extractStreamChunks fs [] chunks).fs.diskUsed ≤ fs.diskLimit ∧
     ((extractStreamChunks fs [] chunks).fileOnDisk.length : Int)
        = (extractStreamChunks fs [] chunks).fs.diskUsed - fs.diskUsed) ∧
    (CanFit fs bytesWritten = false →
      compressFilesTail fs bytesWritten = ⟨true, none, fs, true⟩) ∧
    (CanFit fs bytesWritten = true →
      compressFilesTail fs bytesWritten =
        ⟨true, some bytesWritten, addDisk fs bytesWritten, false⟩) := by
  obtain ⟨ha, hb, _⟩ := extractStreamChunks_spec chunks fs [] hused hpos
  refine ⟨⟨ha, by simpa using hb⟩, ?_, ?_⟩
  · intro h
    simp [compressFilesTail, h]
  · intro h
    simp [compressFilesTail, h]

/-- Witness for C3 at a concrete run: limit 4, chunks of 2 and 3 bytes; the
second chunk is refused and the counter stays within the limit. -/
theorem C3_quota_enforcement_witness :
    (extractStreamChunks ⟨0, 4⟩ [] [[1, 2], [3, 4, 5]]).fs.diskUsed ≤ (4 : Int) :=
  ((C3_quota_enforcement ⟨0, 4⟩ [[1, 2], [3, 4, 5]] 5 (by decide) (by decide)).1).1

/-! ## C4: compress then decompress round trip
(server/filesystem/compress.go, CompressFiles and extractStream) -/

/-- The four archive formats accepted by CompressFiles and handed to the
external archiver (zip, tar+gzip, tar+bzip2, tar+xz). -/
inductive ArchiveExt
  | zip
  | targz
  | tarbz2
  | tarxz
deriving DecidableEq

/-- An archive entry as exposed by the external archives library: path
relative to the compression directory, directory flag, contents,
modification time and mode. -/
structure ArchiveEntry where
  nameInArchive : String
  isDir : Bool
  contents : Bytes
  modTime : Int
  mode : Nat
deriving DecidableEq

/-- Modelled from the spec: the external mholt/archives library (not part of
this repository) is treated as a faithful container for each of the four
formats: an archive carries exactly the entries given to Archive, and
Extract enumerates them with their contents and modification times. -/
structure ArchiveFile where
  ext : ArchiveExt
  entries : List ArchiveEntry
deriving DecidableEq

/-- CompressFiles (entry selection): the caller paths are filtered through
IsIgnored (an allow-list of non-ignored paths, modelled as a predicate), an
empty selection is an error, and the surviving files are archived in the
chosen format. -/
def CompressFiles (ignored : String → Bool) (ext : ArchiveExt)
    (files : List ArchiveEntry) : Except String ArchiveFile :=
  let validPaths := files.filter fun f => !ignored f.nameInArchive
  if validPaths.length = 0 then
    .error "no valid files to compress"
  else
    .ok ⟨ext, validPaths⟩

/-- The destination filesystem as a list of written files: path, contents
and modification time. -/
abbrev FileStore := List (String × Bytes × Int)

/-- Modelled from the spec: Filesystem.Write (declared outside the provided
sources) creates or replaces the file at the path with the streamed
contents; quota and path safety are the subject of C3. -/
def fsWrite (st : FileStore) (name : String) (contents : Bytes) : FileStore :=
  match st with
  | [] => [(name, contents, 0)]
  | (n, c, m) :: rest =>
    if n = name then (n, contents, m) :: rest
    else (n, c, m) :: fsWrite rest name contents

/-- Modelled from the spec: Filesystem.Chtimes sets the modification time of
the file at the path (both atime and mtime are set to the archive time). -/
def fsChtimes (st : FileStore) (name : String) (mtime : Int) : FileStore :=
  match st with
  | [] => []
  | (n, c, m) :: rest =>
    if n = name then (n, c, mtime) :: rest
    else (n, c, m) :: fsChtimes rest name mtime

/-- The extraction callback of extractStream for archive formats:
directories are skipped, ignored paths are skipped, every other entry is
written through the filesystem and then its modification time from the
archive is applied with Chtimes. -/
def extractArchive (ignored : String → Bool) (arch : ArchiveFile)
    (st : FileStore) : FileStore :=
  arch.entries.foldl
    (fun acc f =>
      if f.isDir then acc
      else if ignored f.nameInArchive then acc
      else fsChtimes (fsWrite acc f.nameInArchive f.contents) f.nameInArchive f.modTime)
    st

/-- Helper: writing a name absent from the store appends the file. -/
theorem fsWrite_fresh (st : FileStore) (name : String) (contents : Bytes)
    (hfree : ∀ p ∈ st, p.1 ≠ name) :
    fsWrite st name contents = st ++ [(name, contents, 0)] := by
  induction st with
  | nil => rfl
  | cons hd tl ih =>
    obtain ⟨n, c, m⟩ := hd
    have hne : n ≠ name := hfree (n, c, m) (List.mem_cons_self _ _)
    simp only [fsWrite, hne, if_false, List.cons_append]
    rw [ih fun p hp => hfree p (List.mem_cons_of_mem _ hp)]

/-- Helper: setting the time of a freshly appended file updates only it. -/
theorem fsChtimes_fresh (st : FileStore) (name : String) (contents : Bytes)
    (mtime : Int) (hfree : ∀ p ∈ st, p.1 ≠ name) :
    fsChtimes (st ++ [(name, contents, 0)]) name mtime =
      st ++ [(name, contents, mtime)] := by
  induction st with
  | nil => simp [fsChtimes]
  | cons hd tl ih =>
    obtain ⟨n, c, m⟩ := hd
    have hne : n ≠ name := hfree (n, c, m) (List.mem_cons_self _ _)
    simp only [List.cons_append, fsChtimes, hne, if_false, List.append_eq]
    rw [ih fun p hp => hfree p (List.mem_cons_of_mem _ hp)]

/-- Helper: extracting entries with fresh pairwise-distinct names appends
them to the store in order, with their contents and archive times. -/
theorem extractArchive_fresh (ignored : String → Bool) (ext : ArchiveExt)
    (files : List ArchiveEntry) :
    ∀ st : FileStore,
      (∀ f ∈ files, f.isDir = false) →
      (∀ f ∈ files, ignored f.nameInArchive = false) →
      (∀ f ∈ files, ∀ p ∈ st, p.1 ≠ f.nameInArchive) →
      (files.map (·.nameInArchive)).Nodup →
      extractArchive ignored ⟨ext, files⟩ st =
        st ++ files.map fun f => (f.nameInArchive, f.contents, f.modTime) := by
  induction files with
  | nil => intro st _ _ _ _; simp [extractArchive]
  | cons f rest ih =>
    intro st hdir hig hfree hnodup
    have hfd : f.isDir = false := hdir f (List.mem_cons_self _ _)
    have hfg : ignored f.nameInArchive = false := hig f (List.mem_cons_self _ _)
    have hff : ∀ p ∈ st, p.1 ≠ f.nameInArchive :=
      hfree f (List.mem_cons_self _ _)
    have hstep : extractArchive ignored ⟨ext, f :: rest⟩ st =
        extractArchive ignored ⟨ext, rest⟩
          (st ++ [(f.nameInArchive, f.contents, f.modTime)]) := by
      simp only [extractArchive, List.foldl_cons, hfd, hfg, Bool.false_eq_true,
        if_false]
      rw [fsWrite_fresh st f.nameInArchive f.contents hff,
        fsChtimes_fresh st f.nameInArchive f.contents f.modTime hff]
    rw [hstep]
    have hnodup2 : f.nameInArchive ∉ rest.map (·.nameInArchive) ∧
        (rest.map (·.nameInArchive)).Nodup := by
      rw [List.map_cons] at hnodup
      exact List.nodup_cons.mp hnodup
    have hrest := ih (st ++ [(f.nameInArchive, f.contents, f.modTime)])
      (fun g hg => hdir g (List.mem_cons_of_mem _ hg))
      (fun g hg => hig g (List.mem_cons_of_mem _ hg))
      (fun g hg p hp => by
        rcases List.mem_append.mp hp with hmem | hmem
        · exact hfree g (List.mem_cons_of_mem _ hg) p hmem
        · have hpe : p = (f.nameInArchive, f.contents, f.modTime) := by
            simpa using hmem
          subst hpe
          intro hcontra
          have hcontra2 : f.nameInArchive = g.nameInArchive := hcontra
          refine hnodup2.1 ?_
          rw [hcontra2]
          exact List.mem_map_of_mem (·.nameInArchive) hg)
      hnodup2.2
    rw [hrest]
    simp

/-- C4: for every format among zip, tar.gz, tar.bz2 and tar.xz, compressing
a non-empty set of regular, non-ignored files with pairwise distinct paths
and then extracting the produced archive yields exactly those files with
byte-identical contents and preserved modification times (the external
archive codec is modelled as a faithful entry container). -/
theorem C4_compress_decompress_roundtrip (ext : ArchiveExt)
    (files : List ArchiveEntry) (ignored : String → Bool)
    (hne : files ≠ [])
    (hig : ∀ f ∈ files, ignored f.nameInArchive = false)
    (hdir : ∀ f ∈ files, f.isDir = false)
    (hnodup : (files.map (·.nameInArchive)).Nodup) :
    CompressFiles ignored ext files = .ok ⟨ext, files⟩ ∧
    extractArchive ignored ⟨ext, files⟩ [] =
      files.map fun f => (f.nameInArchive, f.contents, f.modTime) := by
  have hfilter : files.filter (fun f => !ignored f.nameInArchive) = files := by
    apply List.filter_eq_self.mpr
    intro f hf
    simp [hig f hf]
  constructor
  · unfold CompressFiles
    rw [hfilter]
    have : files.length ≠ 0 := by
      intro h
      exact hne (List.length_eq_zero.mp h)
    simp [this]
  · have h := extractArchive_fresh ignored ext files []
      hdir hig (fun f _ p hp => absurd hp (List.not_mem_nil p)) hnodup
    simpa using h

/-- Witness for C4 at a concrete file set: one regular file round-trips with
its contents and modification time. -/
theorem C4_compress_decompress_roundtrip_witness :
    CompressFiles (fun _ => false) ArchiveExt.targz
        [⟨"a.txt", false, [1, 2], 5, 420⟩] =
      .ok ⟨ArchiveExt.targz, [⟨"a.txt", false, [1, 2], 5, 420⟩]⟩ ∧
    extractArchive (fun _ => false)
        ⟨ArchiveExt.targz, [⟨"a.txt", false, [1, 2], 5, 420⟩]⟩ [] =
      [("a.txt", [1, 2], 5)] :=
  C4_compress_decompress_roundtrip ArchiveExt.targz
    [⟨"a.txt", false, [1, 2], 5, 420⟩] (fun _ => false)
    (by decide) (by intro f hf; rfl) (by decide)
    (by decide)

/-- C9: a change-times call with a zero atime or mtime leaves the
corresponding existing timestamp untouched while a non-zero timestamp is
applied, on both the Linux implementation (via UTIME_OMIT) and the Darwin
implementation (via an Fstatat read), and the two agree. -/
theorem C9_chtimes_zero_preserved (file : FileTimes) (atime mtime : GoTime) :
    Chtimesat_linux file atime mtime =
      { atime := match atime with | .zeroTime => file.atime | .unixNanos n => n
        mtime := match mtime with | .zeroTime => file.mtime | .unixNanos n => n } ∧
    Chtimesat_darwin file atime mtime = Chtimesat_linux file atime mtime := by
  cases atime <;> cases mtime <;>
    simp [Chtimesat_linux, Chtimesat_darwin, utimesNanoAt, GoTime.isZero]

end Wings
